import Mathlib

/-!
Shallow embedding of the Kappa coordinator core (package `executor` and
`handler` of github.com/NetSys/kappa), covering:

* the wire protocol types (`CoordCall`, `Request`, `ParseRequest`)
  from `coordinator/pkg/handler/protocol.go`;
* the per-process run state and its update rule (`runState.update`)
  and the process driver loop (`process.Run`)
  from `coordinator/pkg/executor/process.go`;
* coordinator-call dispatch (`handleRequest`, the per-variant `run`
  methods, `immediateRes`/`immediateErr`) from `coordinator/pkg/executor/coordcall.go`;
* the RPC endpoint (`workload.ServeHTTP`) from `coordinator/pkg/executor/rpc.go`;
* workload and process creation (`workload.Run`, `workload.CreateProcess`)
  from `coordinator/pkg/executor/workload.go`.

Modelling conventions: Go `int` is `Int`; Go `interface{}` results
(`handler.CCResT`) are `Option α` for a type parameter `α` (Go `nil` is
`none`); Go errors are `Option String` / `Except String`; JSON decoding
(easyjson) is abstracted as a function or `Option` parameter; a channel that
delivers exactly one message is modelled by the function returning that
message; a blocking receive from a completion channel is modelled as a
step that can proceed only in states where the awaited process is done.
-/

namespace Kappa

/- The Go types `handler.SeqnoT`, `handler.PidT` and `executor.QidT` are all
`int`; they appear below as `Int`. -/

/-- CoordCall is the format of a single coordinator call inside a request to
the coordinator (protocol.go).  `params` stands for the raw JSON blob. -/
structure CoordCall where
  seqno : Int
  op : String
  params : String
  deriving DecidableEq

/-- Request is the format of a handler's request to the coordinator
(protocol.go). -/
structure Request where
  pid : Int
  seqno : Int
  chkID : String
  calls : List CoordCall
  blocked : Bool
  err : Option String
  deriving DecidableEq

/-- handleCCRes stores the result of handling a coordinator call
(coordcall.go).  The result field is of Go type `handler.CCResT`
(`interface\x7b\x7d`), modelled by `Option α` with `none` for Go `nil`. -/
structure HandleCCRes (α : Type) where
  res : Option α
  done : Bool
  err : Option String
  deriving DecidableEq

/-- Zero value of `handleCCRes`, which is also the message built by
`immediateRes(nil, false, nil)`. -/
def HandleCCRes.zero (α : Type) : HandleCCRes α := ⟨none, false, none⟩

/-- runState is the running state of a process (process.go):
result of the last coordinator call, expected sequence number of the next
coordinator call (initially 0), and last checkpoint ID. -/
structure RunState (α : Type) where
  res : Option α
  nextSeqno : Int
  chkID : String
  deriving DecidableEq

/-- update(req, res) from process.go lines 51-56: no change when
`req.Seqno < rs.nextSeqno`; otherwise the whole struct is replaced. -/
def RunState.update (rs : RunState α) (req : Request) (res : Option α) : RunState α :=
  if req.seqno < rs.nextSeqno then rs
  else { res := res, nextSeqno := req.seqno + 1, chkID := req.chkID }

/-- C1: run-state update rule.  `runState.update(req, res)` leaves the state
unchanged when `req.Seqno < s.nextSeqno`; otherwise it sets
`lastResult := res`, `nextSeqno := req.Seqno + 1`, `chkID := req.ChkID`;
and in either case `nextSeqno` never decreases. -/
theorem run_state_update_rule (rs : RunState α) (req : Request) (res : Option α) :
    (if req.seqno < rs.nextSeqno then rs.update req res = rs
     else rs.update req res =
       { res := res, nextSeqno := req.seqno + 1, chkID := req.chkID }) ∧
    rs.nextSeqno ≤ (rs.update req res).nextSeqno := by
  unfold RunState.update
  by_cases h : req.seqno < rs.nextSeqno <;> simp [h]
  omega

/-!
Coordinator-call dispatch (coordcall.go).  `parseCoordCall` looks the op tag
up in `ccMap` and easyjson-decodes the params; since JSON decoding is not
modelled, the whole of `parseCoordCall` is a parameter `decode` returning
`Except`, and the parsed-call type is a type parameter `γ`.  Likewise the
effect of `<-cci.run(p)` (one message plus a workload-state change) is a
parameter `exec : γ → σ → HandleCCRes α × σ` over an abstract workload
state `σ`; `handleRequest`'s own control flow is translated literally.
-/

/-- Filter-and-parse stage of `handleRequest` (coordcall.go lines 348-362):
calls whose seqno is below the process seqno are skipped, the rest are parsed
in order, and the first parse error aborts the whole request. -/
def filterParseCalls (decode : CoordCall → Except String γ) (processSeqno : Int) :
    List CoordCall → Except String (List γ)
  | [] => .ok []
  | cc :: rest =>
    if cc.seqno < processSeqno then filterParseCalls decode processSeqno rest
    else
      match decode cc with
      | .error e => .error e
      | .ok cci =>
        match filterParseCalls decode processSeqno rest with
        | .error e => .error e
        | .ok l => .ok (cci :: l)

/-- The goroutine body of `handleRequest` (coordcall.go lines 370-379): run
the parsed calls in order, stopping at the first result with `done` or a
non-nil error; the message sent on the channel is the result of the last
executed call.  (For the empty list the Go loop body never runs and the zero
value would be sent; `handleRequest` never reaches that case.) -/
def runCallsLoop (exec : γ → σ → HandleCCRes α × σ) : List γ → σ → HandleCCRes α × σ
  | [], st => (HandleCCRes.zero α, st)
  | [cci], st => exec cci st
  | cci :: cc2 :: rest, st =>
    let r := exec cci st
    if r.1.done || r.1.err.isSome then r
    else runCallsLoop exec (cc2 :: rest) r.2

/-- handleRequest (coordcall.go lines 346-381): filter and parse the request's
calls; if none survive, deliver `immediateRes(nil, false, nil)` at once;
otherwise run the calls in order.  The returned channel has capacity 1 and is
sent exactly one message, so the model returns that single message (and the
final workload state). -/
def handleRequest (decode : CoordCall → Except String γ) (exec : γ → σ → HandleCCRes α × σ)
    (req : Request) (processSeqno : Int) (st : σ) : Except String (HandleCCRes α × σ) :=
  match filterParseCalls decode processSeqno req.calls with
  | .error e => .error e
  | .ok parsedCalls =>
    if parsedCalls.isEmpty then .ok (HandleCCRes.zero α, st)
    else .ok (runCallsLoop exec parsedCalls st)

/-- A dispatch result stops the `handleRequest` loop when it reports `done`
or carries a non-nil error. -/
def stopsRes (r : HandleCCRes α) : Bool := r.done || r.err.isSome

/-- Sequence of results the calls would produce if all of them ran, with the
workload state threaded through in order.  The loop's executed prefix agrees
with a prefix of this list. -/
def execOutputs (exec : γ → σ → HandleCCRes α × σ) : List γ → σ → List (HandleCCRes α)
  | [], _ => []
  | cci :: rest, st =>
    let r := exec cci st
    r.1 :: execOutputs exec rest r.2

theorem execOutputs_length (exec : γ → σ → HandleCCRes α × σ) (l : List γ) (st : σ) :
    (execOutputs exec l st).length = l.length := by
  induction l generalizing st with
  | nil => rfl
  | cons c rest ih => simp [execOutputs, ih]

/-- The list of calls of a request that are not skipped as stale. -/
def freshCalls (processSeqno : Int) (calls : List CoordCall) : List CoordCall :=
  calls.filter (fun cc => !decide (cc.seqno < processSeqno))

theorem filterParseCalls_ok_spec (decode : CoordCall → Except String γ) (processSeqno : Int) :
    ∀ (calls : List CoordCall) (impls : List γ),
      filterParseCalls decode processSeqno calls = .ok impls →
      (freshCalls processSeqno calls).length = impls.length ∧
      ∀ pr ∈ (freshCalls processSeqno calls).zip impls, decode pr.1 = .ok pr.2 := by
  intro calls
  induction calls with
  | nil =>
    intro impls h
    simp only [filterParseCalls] at h
    cases h
    simp [freshCalls]
  | cons cc rest ih =>
    intro impls h
    simp only [filterParseCalls] at h
    by_cases hst : cc.seqno < processSeqno
    · rw [if_pos hst] at h
      have := ih impls h
      simpa [freshCalls, hst] using this
    · rw [if_neg hst] at h
      cases hdec : decode cc with
      | error e => rw [hdec] at h; cases h
      | ok cci =>
        rw [hdec] at h
        cases hrest : filterParseCalls decode processSeqno rest with
        | error e => rw [hrest] at h; cases h
        | ok l =>
          rw [hrest] at h
          cases h
          have ⟨hlen, hmem⟩ := ih l hrest
          refine ⟨by simpa [freshCalls, hst] using hlen, ?_⟩
          intro pr hpr
          rw [freshCalls, List.filter_cons_of_pos (by simp [hst]),
            List.zip_cons_cons, List.mem_cons] at hpr
          rcases hpr with rfl | h2
          · exact hdec
          · exact hmem pr h2

theorem runCallsLoop_last_executed (exec : γ → σ → HandleCCRes α × σ) :
    ∀ (l : List γ) (st : σ), l ≠ [] →
      ∃ k, k < (execOutputs exec l st).length ∧
        (runCallsLoop exec l st).1 = (execOutputs exec l st).getD k (HandleCCRes.zero α) ∧
        (∀ j < k, stopsRes ((execOutputs exec l st).getD j (HandleCCRes.zero α)) = false) ∧
        (stopsRes ((execOutputs exec l st).getD k (HandleCCRes.zero α)) = true ∨
          k = (execOutputs exec l st).length - 1) := by
  intro l
  induction l with
  | nil => intro st h; exact absurd rfl h
  | cons cci rest ih =>
    intro st _
    cases rest with
    | nil =>
      refine ⟨0, ?_, ?_, ?_, ?_⟩
      · simp [execOutputs]
      · simp [runCallsLoop, execOutputs]
      · intro j hj; omega
      · right; simp [execOutputs]
    | cons cc2 rest2 =>
      by_cases hstop : ((exec cci st).1.done || (exec cci st).1.err.isSome) = true
      · refine ⟨0, ?_, ?_, ?_, ?_⟩
        · simp [execOutputs]
        · simp [runCallsLoop, execOutputs, hstop]
        · intro j hj; omega
        · left; simpa [execOutputs, stopsRes] using hstop
      · obtain ⟨k, hk, hres, hbefore, hlast⟩ := ih (exec cci st).2 (by simp)
        refine ⟨k + 1, ?_, ?_, ?_, ?_⟩
        · simpa [execOutputs] using hk
        · simpa [runCallsLoop, execOutputs, hstop] using hres
        · intro j hj
          cases j with
          | zero => simpa [execOutputs, stopsRes] using hstop
          | succ j' => simpa [execOutputs] using hbefore j' (by omega)
        · rcases hlast with h1 | h2
          · left; simpa [execOutputs] using h1
          · right
            simp only [execOutputs_length, List.length_cons] at h2 ⊢
            omega

/-- C2: dispatching a request with multiple calls.  Whenever the filter-parse
stage succeeds with a nonempty list of parsed calls, `handleRequest` runs
that list; the parsed calls are exactly the request's calls in listed order
with every call whose own seqno is below the process's `nextSeqno` skipped;
and the single message delivered on the returned (capacity-1) channel is
the result of the last executed call, i.e. the result at some position `k`
such that no earlier executed call stopped the loop and the call at `k`
either stops the loop (`done` or a non-nil error) or is the final parsed
call.  The model returns exactly one message, mirroring the single send the
goroutine performs on the channel. -/
theorem handle_request_dispatch (decode : CoordCall → Except String γ)
    (exec : γ → σ → HandleCCRes α × σ) (req : Request) (processSeqno : Int) (st : σ)
    (impls : List γ) (hok : filterParseCalls decode processSeqno req.calls = .ok impls)
    (hne : impls ≠ []) :
    handleRequest decode exec req processSeqno st = .ok (runCallsLoop exec impls st) ∧
    ((freshCalls processSeqno req.calls).length = impls.length ∧
      ∀ pr ∈ (freshCalls processSeqno req.calls).zip impls, decode pr.1 = .ok pr.2) ∧
    ∃ k, k < (execOutputs exec impls st).length ∧
      (runCallsLoop exec impls st).1 = (execOutputs exec impls st).getD k (HandleCCRes.zero α) ∧
      (∀ j < k, stopsRes ((execOutputs exec impls st).getD j (HandleCCRes.zero α)) = false) ∧
      (stopsRes ((execOutputs exec impls st).getD k (HandleCCRes.zero α)) = true ∨
        k = (execOutputs exec impls st).length - 1) := by
  refine ⟨?_, filterParseCalls_ok_spec decode processSeqno req.calls impls hok,
    runCallsLoop_last_executed exec impls st hne⟩
  simp [handleRequest, hok, List.isEmpty_iff, hne]

/-- Witness for C2 at a concrete request: two calls with seqnos 0 and 1
dispatched at process seqno 1; the call with seqno 0 is skipped, the one
with seqno 1 is executed and its (non-stopping) result is delivered. -/
theorem handle_request_dispatch_witness :
    filterParseCalls (fun cc => Except.ok cc.seqno) 1
        [⟨0, "checkpoint", ""⟩, ⟨1, "checkpoint", ""⟩] = .ok [(1 : Int)] ∧
    handleRequest (fun cc => Except.ok cc.seqno)
        (fun (i : Int) (_ : Unit) => (⟨some i, false, none⟩, ()))
        ⟨0, 1, "chk", [⟨0, "checkpoint", ""⟩, ⟨1, "checkpoint", ""⟩], false, none⟩ 1 () =
      .ok (runCallsLoop (fun (i : Int) (_ : Unit) => (⟨some i, false, none⟩, ())) [(1 : Int)] ()) := by
  have h := handle_request_dispatch (fun cc => Except.ok cc.seqno)
    (fun (i : Int) (_ : Unit) => ((⟨some i, false, none⟩ : HandleCCRes Int), ()))
    ⟨0, 1, "chk", [⟨0, "checkpoint", ""⟩, ⟨1, "checkpoint", ""⟩], false, none⟩ 1 ()
    [(1 : Int)] rfl (by decide)
  exact ⟨rfl, h.1⟩

/-!
Process driver (process.go, `process.Run`).  The driver is an event loop; the
events it reacts to are completions of the outstanding handler invocation
(`<-invokeCh`, process.go lines 79-127) and RPC arrivals.  The claims below
concern the invocation-completion branch and the common run-state-update
tail (lines 159-168), which the model renders as one step function over an
explicit driver state; the substrate's answer is an `InvokeEv`.
-/

/-- A handler crash is fatal after this number of retries (process.go line 24). -/
def crashRetries : Nat := 3

/-- Classified outcome of one handler invocation, as `process.Run` consumes
it: `handler.CrashedError` (with its message), `handler.TimeoutError`, any
other error, or a successfully parsed `Request`. -/
inductive InvokeEv where
  | crashed (msg : String)
  | timedOut
  | failed (msg : String)
  | ok (req : Request)
  deriving DecidableEq

/-- The mutable local state of `process.Run`: the consecutive-crash counter
`numCrashes` and the run state `s`. -/
structure DriverState (α : Type) where
  numCrashes : Nat
  rs : RunState α
  deriving DecidableEq

/-- Outcome of one driver step: keep looping with a new driver state (and
workload state), report a fatal error via `p.fatal(seqno, err)` and return,
or return normally after a `done` result (the `exit` call). -/
inductive DriverOut (α σ : Type) where
  | running (d : DriverState α) (st : σ)
  | fatal (seqno : Int) (msg : String)
  | exited
  deriving DecidableEq

/-- One iteration of the `process.Run` event loop on an invocation-completion
event (process.go lines 79-127 and the shared tail at lines 159-168).
A crash bumps `numCrashes` and is fatal past `crashRetries`; a timeout
resets `numCrashes` to 0 and restarts; any other invocation error is fatal
(the code sets `numCrashes = 0` first, which is irrelevant as it returns);
a successful return that is `Blocked` or outdated just restarts; otherwise
the request is dispatched through `handleRequest` and the run state is
updated by `runState.update`.  Note that a successfully handled request does
not touch `numCrashes`. -/
def driverStep (decode : CoordCall → Except String γ) (exec : γ → σ → HandleCCRes α × σ)
    (d : DriverState α) (st : σ) : InvokeEv → DriverOut α σ
  | .crashed msg =>
    let n := d.numCrashes + 1
    if n > crashRetries then .fatal d.rs.nextSeqno ("handler crashed: " ++ msg)
    else .running { d with numCrashes := n } st
  | .timedOut => .running { d with numCrashes := 0 } st
  | .failed msg => .fatal d.rs.nextSeqno msg
  | .ok req =>
    if req.blocked then .running d st
    else if req.seqno < d.rs.nextSeqno then .running d st
    else
      match handleRequest decode exec req d.rs.nextSeqno st with
      | .error e => .fatal d.rs.nextSeqno e
      | .ok (hr, st') =>
        match hr.err with
        | some e => .fatal d.rs.nextSeqno e
        | none =>
          if hr.done then .exited
          else .running { d with rs := d.rs.update req hr.res } st'

/-- Iterate `driverStep` over a list of invocation events; a fatal error or a
normal exit ends the loop. -/
def driverRun (decode : CoordCall → Except String γ) (exec : γ → σ → HandleCCRes α × σ)
    (d : DriverState α) (st : σ) : List InvokeEv → DriverOut α σ
  | [] => .running d st
  | ev :: rest =>
    match driverStep decode exec d st ev with
    | .running d' st' => driverRun decode exec d' st' rest
    | .fatal seqno msg => .fatal seqno msg
    | .exited => .exited

/-- C4: crash retry bound.  `crashRetries` is 3; on a crashed invocation the
driver increments the consecutive-crash counter, raises a fatal error when
the counter exceeds the bound and otherwise keeps running with the same run
state (`nextSeqno`, `lastResult` and `chkID` unchanged); and once the bound
is exceeded the whole remaining run is that fatal error (the driver
terminates). -/
theorem crash_retry_bound (decode : CoordCall → Except String γ)
    (exec : γ → σ → HandleCCRes α × σ) (d : DriverState α) (st : σ) (msg : String) :
    crashRetries = 3 ∧
    driverStep decode exec d st (.crashed msg) =
      (if d.numCrashes + 1 > crashRetries
       then .fatal d.rs.nextSeqno ("handler crashed: " ++ msg)
       else .running { d with numCrashes := d.numCrashes + 1 } st) ∧
    (d.numCrashes + 1 > crashRetries → ∀ evs,
      driverRun decode exec d st (.crashed msg :: evs) =
        .fatal d.rs.nextSeqno ("handler crashed: " ++ msg)) := by
  refine ⟨rfl, rfl, ?_⟩
  intro h evs
  simp [driverRun, driverStep, h]

/-- Witness for C4: with the counter already at 3, one more crash makes the
whole remaining run fatal. -/
theorem crash_retry_bound_witness :
    driverRun (fun cc => Except.ok cc.seqno)
        (fun (_ : Int) (_ : Unit) => ((HandleCCRes.zero Nat), ()))
        ⟨3, ⟨none, 0, ""⟩⟩ () [.crashed "boom"] = .fatal 0 "handler crashed: boom" :=
  (crash_retry_bound (fun cc => Except.ok cc.seqno)
    (fun (_ : Int) (_ : Unit) => ((HandleCCRes.zero Nat), ()))
    ⟨3, ⟨none, 0, ""⟩⟩ () "boom").2.2 (by decide) []

/-- C3 as stated is false on the code: a successful request does not reset
`numCrashes` (process.go only resets it at line 96, on a non-crash error,
i.e. on a timeout or just before a fatal error).  Concretely, starting from
a fresh driver, the event sequence crash, success, crash, success, crash,
success, crash — in which no two crashes are consecutive and every crash is
separated from the next by a successfully handled request — still reaches
`numCrashes = 4 > crashRetries` and aborts with a fatal error, although the
claim says such crashes do not accumulate toward the fatal bound. -/
theorem crash_counter_not_reset_by_success :
    driverRun (fun cc => Except.ok cc.seqno)
        (fun (_ : Int) (_ : Unit) => ((HandleCCRes.zero Nat), ()))
        ⟨0, ⟨none, 0, ""⟩⟩ ()
        [.crashed "boom", .ok ⟨0, 0, "c0", [], false, none⟩,
         .crashed "boom", .ok ⟨0, 1, "c1", [], false, none⟩,
         .crashed "boom", .ok ⟨0, 2, "c2", [], false, none⟩,
         .crashed "boom"] = .fatal 3 "handler crashed: boom" := by
  rfl

/-- C3 amended: strictly more than `crashRetries` crashes with no intervening
*timeout* produce a workload-fatal error; the consecutive-crash counter is
reset by a timeout, not by a successful request, so crashes separated only
by successfully handled requests still accumulate toward the fatal bound.
Conjuncts: (1) from a zeroed counter, `crashRetries + 1` consecutive crashes
are fatal; (2) a timeout resets the counter; (3) any step on a successful
invocation that keeps the driver running leaves the counter unchanged. -/
theorem crash_bound_amended (decode : CoordCall → Except String γ)
    (exec : γ → σ → HandleCCRes α × σ) :
    (∀ (d : DriverState α) (st : σ) (msg : String), d.numCrashes = 0 →
      driverRun decode exec d st (List.replicate (crashRetries + 1) (.crashed msg)) =
        .fatal d.rs.nextSeqno ("handler crashed: " ++ msg)) ∧
    (∀ (d : DriverState α) (st : σ),
      driverStep decode exec d st .timedOut = .running { d with numCrashes := 0 } st) ∧
    (∀ (d : DriverState α) (st : σ) (req : Request) (d' : DriverState α) (st' : σ),
      driverStep decode exec d st (.ok req) = .running d' st' →
      d'.numCrashes = d.numCrashes) := by
  refine ⟨?_, fun d st => rfl, ?_⟩
  · intro d st msg h
    obtain ⟨n, rs⟩ := d
    simp only at h
    subst h
    simp [driverRun, driverStep, crashRetries, List.replicate]
  · intro d st req d' st' h
    simp only [driverStep] at h
    by_cases hb : req.blocked = true
    · rw [if_pos hb] at h
      cases h
      rfl
    · rw [if_neg hb] at h
      by_cases hout : req.seqno < d.rs.nextSeqno
      · rw [if_pos hout] at h
        cases h
        rfl
      · rw [if_neg hout] at h
        cases hh : handleRequest decode exec req d.rs.nextSeqno st with
        | error e => rw [hh] at h; cases h
        | ok pr =>
          rw [hh] at h
          obtain ⟨hr, stf⟩ := pr
          cases herr : hr.err with
          | some e => simp [herr] at h
          | none =>
            simp only [herr] at h
            by_cases hd : hr.done = true
            · simp [hd] at h
            · simp only [hd, Bool.false_eq_true, if_false] at h
              cases h
              rfl

/-- Witness for C3's amended statement: from a fresh driver, four consecutive
crashes abort with a fatal error. -/
theorem crash_bound_amended_witness :
    driverRun (fun cc => Except.ok cc.seqno)
        (fun (_ : Int) (_ : Unit) => ((HandleCCRes.zero Nat), ()))
        ⟨0, ⟨none, 0, ""⟩⟩ ()
        (List.replicate (crashRetries + 1) (.crashed "boom")) =
      .fatal 0 "handler crashed: boom" :=
  (crash_bound_amended (fun cc => Except.ok cc.seqno)
      (fun (_ : Int) (_ : Unit) => ((HandleCCRes.zero Nat), ()))).1
    ⟨0, ⟨none, 0, ""⟩⟩ () "boom" rfl

theorem filterParseCalls_all_stale (decode : CoordCall → Except String γ)
    (processSeqno : Int) :
    ∀ calls : List CoordCall, (∀ cc ∈ calls, cc.seqno < processSeqno) →
      filterParseCalls decode processSeqno calls = .ok [] := by
  intro calls
  induction calls with
  | nil => intro _; rfl
  | cons cc rest ih =>
    intro h
    simp only [filterParseCalls]
    rw [if_pos (h cc (by simp))]
    exact ih (fun c hc => h c (by simp [hc]))

/-- C10: a request whose seqno is fresh (`≥ nextSeqno`) but all of whose
calls are individually stale executes no call: `handleRequest` immediately
delivers `immediateRes(nil, false, nil)` (null result, `done = false`, no
error), and the driver then still advances the run state to
`(nil, req.seqno + 1, req.chk_id)` (with the crash counter untouched). -/
theorem all_stale_request_advances (decode : CoordCall → Except String γ)
    (exec : γ → σ → HandleCCRes α × σ) (d : DriverState α) (st : σ) (req : Request)
    (hb : req.blocked = false) (hseq : d.rs.nextSeqno ≤ req.seqno)
    (hstale : ∀ cc ∈ req.calls, cc.seqno < d.rs.nextSeqno) :
    handleRequest decode exec req d.rs.nextSeqno st = .ok (HandleCCRes.zero α, st) ∧
    driverStep decode exec d st (.ok req) =
      .running { d with rs := { res := none, nextSeqno := req.seqno + 1, chkID := req.chkID } } st := by
  have hfp := filterParseCalls_all_stale decode d.rs.nextSeqno req.calls hstale
  have hhr : handleRequest decode exec req d.rs.nextSeqno st = .ok (HandleCCRes.zero α, st) := by
    simp [handleRequest, hfp]
  refine ⟨hhr, ?_⟩
  have hnotlt : ¬ req.seqno < d.rs.nextSeqno := by omega
  simp only [driverStep, hb, Bool.false_eq_true, if_false, hnotlt, hhr]
  simp [HandleCCRes.zero, RunState.update, hnotlt]

/-- Witness for C10: a request with seqno 1 whose single call has seqno 0 is
dispatched at `nextSeqno = 1`; nothing is executed, yet the run state
advances to seqno 2 with a null last result and the request's checkpoint. -/
theorem all_stale_request_advances_witness :
    handleRequest (fun cc => Except.ok cc.seqno)
        (fun (_ : Int) (_ : Unit) => ((HandleCCRes.zero Nat), ()))
        ⟨0, 1, "chk1", [⟨0, "checkpoint", ""⟩], false, none⟩ 1 () =
      .ok (HandleCCRes.zero Nat, ()) ∧
    driverStep (fun cc => Except.ok cc.seqno)
        (fun (_ : Int) (_ : Unit) => ((HandleCCRes.zero Nat), ()))
        ⟨7, ⟨some 5, 1, "old"⟩⟩ () (.ok ⟨0, 1, "chk1", [⟨0, "checkpoint", ""⟩], false, none⟩) =
      .running ⟨7, ⟨none, 2, "chk1"⟩⟩ () :=
  all_stale_request_advances (fun cc => Except.ok cc.seqno)
    (fun (_ : Int) (_ : Unit) => ((HandleCCRes.zero Nat), ()))
    ⟨7, ⟨some 5, 1, "old"⟩⟩ () ⟨0, 1, "chk1", [⟨0, "checkpoint", ""⟩], false, none⟩
    rfl (by decide) (by decide)

/-!
Concrete coordinator-call variants (coordcall.go).  `CCImpl` is the closed
set of structs registered in `ccMap`; `CCVal` is the closed set of result
values the `run` methods place in the `res` field of a delivered message
(Go `interface\x7b\x7d` values; `CCVal.deferred` stands for a value that is only
read from a channel after the call unblocks, e.g. a blocking spawn's child
results or a dequeue from an empty queue).  `WState` is a snapshot of the
workload's tables plus the outcome of the external store `Rename`.
-/

/-- A process record, restricted to the fields the modelled calls read or
write: constant name and target, the completion flag (`Done` closed) and the
return value `Ret` (zero value `""`, written before `Done` is closed). -/
inductive Target where
  | onCoordinator
  | onLambda
  deriving DecidableEq

structure Proc where
  name : String
  target : Target
  done : Bool
  ret : String
  deriving DecidableEq

/-- A queue: fixed capacity and current buffered contents. -/
structure Queue where
  maxSize : Nat
  buf : List String
  deriving DecidableEq

/-- Snapshot of a workload's shared state: process and queue tables with
their id counters, and the result of the external store rename used by
`remap_store` (`none` = success). -/
structure WState where
  nextPid : Int
  procs : List (Int × Proc)
  nextQid : Int
  queues : List (Int × Queue)
  storeErr : Option String
  deriving DecidableEq

/-- workload.GetProcess: map lookup by pid. -/
def getProc (st : WState) (pid : Int) : Option Proc :=
  (st.procs.find? (fun pr => pr.1 == pid)).map (·.2)

/-- workload.GetQueue: map lookup by qid. -/
def getQueue (st : WState) (qid : Int) : Option Queue :=
  (st.queues.find? (fun pr => pr.1 == qid)).map (·.2)

/-- The closed set of coordinator-call structs from `ccMap`
(coordcall.go lines 22-32), with their easyjson-decoded parameters. -/
inductive CCImpl where
  | ccExit (result : String)
  | ccCheckpoint
  | ccSpawn (name childChkID : String) (futurePids awaitPids : List Int)
      (blocking : Bool) (copies : Int) (onCoordinator : Bool)
  | ccMapSpawn (name childChkID : String) (futurePids : List Int)
      (elems : List String) (awaitPids : List Int) (onCoordinator : Bool)
  | ccWait (pid : Int)
  | ccCreateQueue (maxSize : Nat) (copies : Int)
  | ccEnqueue (qid : Int) (objs : List String)
  | ccDequeue (qid : Int)
  | ccRemapStore (tmpBucket tmpKey bucket key : String)
  deriving DecidableEq

/-- Result values delivered by the `run` methods. -/
inductive CCVal where
  | childPidsObj (pids : List Int)
  | pidList (pids : List Int)
  | procRes (r : String)
  | qidVal (q : Int)
  | qidList (qs : List Int)
  | queueObj (s : String)
  | deferred
  deriving DecidableEq

/-- The single message each `run` method eventually delivers on its result
channel, read off the `run` bodies in coordcall.go against the snapshot
`st`: `exit` delivers `immediateRes(nil, true, nil)`; `checkpoint` delivers
`immediateRes(nil, false, nil)`; `spawn` delivers the blocking rets object
(deferred) or the fresh child pids; `map_spawn` delivers one fresh pid per
element; `wait`/`enqueue`/`dequeue` on an unknown id deliver
`immediateErr(err) = immediateRes(nil, true, err)`; otherwise `wait`
delivers the awaited process's return value, `enqueue` delivers
`(nil, false, nil)` after inserting, `dequeue` delivers the head (or blocks
until one arrives), and `remap_store` delivers `(nil, false, Rename(...))`. -/
def ccRunMsg (c : CCImpl) (st : WState) : HandleCCRes CCVal :=
  match c with
  | .ccExit _ => ⟨none, true, none⟩
  | .ccCheckpoint => ⟨none, false, none⟩
  | .ccSpawn _ _ _ _ blocking copies _ =>
    if blocking then ⟨some CCVal.deferred, false, none⟩
    else ⟨some (CCVal.childPidsObj ((List.range copies.toNat).map (fun i => st.nextPid + i))),
      false, none⟩
  | .ccMapSpawn _ _ _ elems _ _ =>
    ⟨some (CCVal.pidList ((List.range elems.length).map (fun i => st.nextPid + i))), false, none⟩
  | .ccWait pid =>
    match getProc st pid with
    | none => ⟨none, true, some ("wait: no process exists with pid " ++ toString pid)⟩
    | some p => ⟨some (if p.done then CCVal.procRes p.ret else CCVal.deferred), false, none⟩
  | .ccCreateQueue _ copies =>
    if copies = -1 then ⟨some (CCVal.qidVal st.nextQid), false, none⟩
    else ⟨some (CCVal.qidList ((List.range copies.toNat).map (fun i => st.nextQid + i))),
      false, none⟩
  | .ccEnqueue qid _ =>
    match getQueue st qid with
    | none => ⟨none, true, some ("enqueue: no queue exists with qid " ++ toString qid)⟩
    | some _ => ⟨none, false, none⟩
  | .ccDequeue qid =>
    match getQueue st qid with
    | none => ⟨none, true, some ("dequeue: no queue exists with qid " ++ toString qid)⟩
    | some q =>
      ⟨some (match q.buf with | obj :: _ => CCVal.queueObj obj | [] => CCVal.deferred),
        false, none⟩
  | .ccRemapStore _ _ _ _ => ⟨none, false, st.storeErr⟩

/-- Recognizer for the `exit` variant. -/
def isExitCall (c : CCImpl) : Bool :=
  match c with
  | .ccExit _ => true
  | _ => false

/-- The empty workload snapshot (no processes, no queues). -/
def emptyWState : WState := ⟨0, [], 0, [], none⟩

/-- C5 as stated is false on the code: `immediateErr` (coordcall.go lines
311-313) builds `immediateRes(nil, true, err)`, so a `wait` on an unknown
pid — a call variant other than `exit` — delivers a message with
`done = true`. -/
theorem done_flag_counterexample :
    (ccRunMsg (CCImpl.ccWait 5) emptyWState).done = true ∧
    (ccRunMsg (CCImpl.ccWait 5) emptyWState).err =
      some "wait: no process exists with pid 5" ∧
    isExitCall (CCImpl.ccWait 5) = false := by
  refine ⟨rfl, ?_, rfl⟩
  rfl

/-- C5 amended: a delivered message has `done = true` only when the call is
`exit` or when the message carries a non-nil error (the `immediateErr` path
taken by `wait`, `enqueue` and `dequeue` on an unknown id); conversely
`exit` always delivers `done = true` with a nil error.  In particular, among
error-free messages, `done = true` exactly for `exit`. -/
theorem done_flag_rule (c : CCImpl) (st : WState) :
    ((ccRunMsg c st).done = true → isExitCall c = true ∨ (ccRunMsg c st).err ≠ none) ∧
    (isExitCall c = true → (ccRunMsg c st).done = true ∧ (ccRunMsg c st).err = none) := by
  cases c with
  | ccExit r => exact ⟨fun _ => Or.inl rfl, fun _ => ⟨rfl, rfl⟩⟩
  | ccCheckpoint => exact ⟨fun h => by simp [ccRunMsg] at h, fun h => by simp [isExitCall] at h⟩
  | ccSpawn name cid fp ap blocking copies onc =>
    refine ⟨fun h => ?_, fun h => by simp [isExitCall] at h⟩
    by_cases hb : blocking = true <;> simp [ccRunMsg, hb] at h
  | ccMapSpawn name cid fp elems ap onc =>
    exact ⟨fun h => by simp [ccRunMsg] at h, fun h => by simp [isExitCall] at h⟩
  | ccWait pid =>
    refine ⟨fun h => ?_, fun h => by simp [isExitCall] at h⟩
    cases hp : getProc st pid with
    | none => exact Or.inr (by simp [ccRunMsg, hp])
    | some p => simp [ccRunMsg, hp] at h
  | ccCreateQueue ms copies =>
    refine ⟨fun h => ?_, fun h => by simp [isExitCall] at h⟩
    by_cases hc : copies = -1 <;> simp [ccRunMsg, hc] at h
  | ccEnqueue qid objs =>
    refine ⟨fun h => ?_, fun h => by simp [isExitCall] at h⟩
    cases hq : getQueue st qid with
    | none => exact Or.inr (by simp [ccRunMsg, hq])
    | some q => simp [ccRunMsg, hq] at h
  | ccDequeue qid =>
    refine ⟨fun h => ?_, fun h => by simp [isExitCall] at h⟩
    cases hq : getQueue st qid with
    | none => exact Or.inr (by simp [ccRunMsg, hq])
    | some q => simp [ccRunMsg, hq] at h
  | ccRemapStore a b cc dd =>
    exact ⟨fun h => by simp [ccRunMsg] at h, fun h => by simp [isExitCall] at h⟩

/-- Witness for C5's amended statement: `exit` delivers `done = true` with a
nil error, and that message satisfies the only-for-exit rule. -/
theorem done_flag_rule_witness :
    ((ccRunMsg (CCImpl.ccExit "res") emptyWState).done = true ∧
      (ccRunMsg (CCImpl.ccExit "res") emptyWState).err = none) ∧
    (isExitCall (CCImpl.ccExit "res") = true ∨
      (ccRunMsg (CCImpl.ccExit "res") emptyWState).err ≠ none) :=
  ⟨(done_flag_rule (CCImpl.ccExit "res") emptyWState).2 rfl,
    (done_flag_rule (CCImpl.ccExit "res") emptyWState).1 rfl⟩

/-!
Spawn waiters (coordcall.go, `ccSpawn.run` lines 95-113 and `ccMapSpawn.run`
lines 164-186).  Each child is started by a background goroutine that first
performs a blocking `<-Done` receive for every pid it depends on and only
then calls `child.Run(...)`.  A blocking receive on a closed-once channel is
modelled as a step that can proceed exactly in those snapshots where the
awaited process has completed (`Done` closing is monotone and `Ret` is
written before `Done` is closed, so reading from a snapshot is faithful);
a waiter that cannot yet proceed is `none`, and the child's `Run` is invoked
precisely when the waiter produces `some` start arguments. -/

/-- One blocking receive `<-w.GetProcess(pid).Done`: proceeds with the
process record exactly when the process exists and has completed. -/
def recvDone (st : WState) (pid : Int) : Option Proc :=
  match getProc st pid with
  | some p => if p.done then some p else none
  | none => none

/-- The `AwaitPids` loop: block on every pid in turn, keeping nothing. -/
def awaitAll (st : WState) : List Int → Option Unit
  | [] => some ()
  | pid :: rest =>
    match recvDone st pid with
    | some _ => awaitAll st rest
    | none => none

/-- The `FuturePids` loop: block on every pid in turn and record
`predRes[pid] = p.Ret` (the Go map is modelled as an assoc list in loop
order). -/
def collectPredRes (st : WState) : List Int → Option (List (Int × String))
  | [] => some []
  | pid :: rest =>
    match recvDone st pid with
    | some p => (collectPredRes st rest).map (fun l => (pid, p.ret) :: l)
    | none => none

/-- Arguments of the `child.Run(cc.ChildChkID, nil, predRes)` call that ends
a spawn waiter (the application event passed is nil). -/
structure SpawnStart where
  chkID : String
  predRes : List (Int × String)
  deriving DecidableEq

/-- Arguments of the `child.Run(cc.ChildChkID, nil, []interface\x7b\x7d{predRes, elem})`
call that ends the map_spawn waiter for one child. -/
structure MapSpawnStart where
  chkID : String
  predRes : List (Int × String)
  elem : String
  deriving DecidableEq

/-- The goroutine launched per child by `ccSpawn.run`: wait for `AwaitPids`,
then collect `FuturePids` returns, then start the child. -/
def ccSpawnWaiter (st : WState) (awaitPids futurePids : List Int)
    (childChkID : String) : Option SpawnStart :=
  match awaitAll st awaitPids with
  | none => none
  | some _ =>
    (collectPredRes st futurePids).map (fun pr => ⟨childChkID, pr⟩)

/-- The single background goroutine of `ccMapSpawn.run`: collect
`FuturePids` returns, then wait for `AwaitPids`, then start one child per
element with input `[predRes, elem]`. -/
def ccMapSpawnWaiter (st : WState) (futurePids awaitPids : List Int)
    (childChkID : String) (elems : List String) : Option (List MapSpawnStart) :=
  match collectPredRes st futurePids with
  | none => none
  | some pr =>
    match awaitAll st awaitPids with
    | none => none
    | some _ => some (elems.map (fun e => ⟨childChkID, pr, e⟩))

/-- True when the process exists and has closed its completion signal. -/
def procCompleted (st : WState) (pid : Int) : Bool :=
  match getProc st pid with
  | some p => p.done
  | none => false

/-- The return value of a completed process (zero value for a missing one). -/
def procReturn (st : WState) (pid : Int) : String :=
  match getProc st pid with
  | some p => p.ret
  | none => ""

theorem recvDone_some (st : WState) (pid : Int) (q : Proc)
    (h : recvDone st pid = some q) : getProc st pid = some q ∧ q.done = true := by
  unfold recvDone at h
  cases hg : getProc st pid with
  | none => rw [hg] at h; cases h
  | some p =>
    rw [hg] at h
    simp only [] at h
    by_cases hd : p.done = true
    · rw [if_pos hd] at h
      obtain rfl := Option.some.inj h
      exact ⟨rfl, hd⟩
    · rw [if_neg hd] at h
      cases h

theorem awaitAll_completed (st : WState) :
    ∀ pids : List Int, awaitAll st pids = some () →
      ∀ pid ∈ pids, procCompleted st pid = true := by
  intro pids
  induction pids with
  | nil => intro _ pid hpid; cases hpid
  | cons p rest ih =>
    intro h pid hpid
    simp only [awaitAll] at h
    cases hr : recvDone st p with
    | none => rw [hr] at h; cases h
    | some q =>
      rw [hr] at h
      rcases List.mem_cons.mp hpid with rfl | hm
      · obtain ⟨hg, hd⟩ := recvDone_some st pid q hr
        simp [procCompleted, hg, hd]
      · exact ih h pid hm

theorem collectPredRes_spec (st : WState) :
    ∀ pids : List Int, ∀ pr, collectPredRes st pids = some pr →
      (∀ pid ∈ pids, procCompleted st pid = true) ∧
      pr = pids.map (fun pid => (pid, procReturn st pid)) := by
  intro pids
  induction pids with
  | nil =>
    intro pr h
    cases h
    exact ⟨fun pid hpid => absurd hpid (List.not_mem_nil pid), rfl⟩
  | cons p rest ih =>
    intro pr h
    simp only [collectPredRes] at h
    cases hr : recvDone st p with
    | none => rw [hr] at h; cases h
    | some q =>
      rw [hr] at h
      cases hrest : collectPredRes st rest with
      | none => rw [hrest] at h; cases h
      | some l =>
        rw [hrest] at h
        simp only [Option.map_some] at h
        cases h
        obtain ⟨hall, hl⟩ := ih l hrest
        obtain ⟨hg, hd⟩ := recvDone_some st p q hr
        constructor
        · intro pid hpid
          rcases List.mem_cons.mp hpid with rfl | hm
          · simp [procCompleted, hg, hd]
          · exact hall pid hm
        · simp only [List.map_cons]
          rw [← hl]
          simp [procReturn, hg]

/-- C6: spawn dependency.  If a spawn (resp. map_spawn) waiter reaches the
point of starting its child — i.e. it produces start arguments — then every
pid in `await_pids ∪ future_pids` has closed its completion signal in the
snapshot it read, the checkpoint handed to the child is `child_chk_id`, and
the predecessor-result map passed to the child is exactly
`future_pids → return value`; each map_spawn child additionally receives its
own element alongside that same map.  The child's first invocation happens
only via these start arguments, hence only after all those completions. -/
theorem spawn_dependency (st : WState) (awaitPids futurePids : List Int)
    (chk : String) (elems : List String) :
    (∀ start, ccSpawnWaiter st awaitPids futurePids chk = some start →
      (∀ pid ∈ awaitPids ++ futurePids, procCompleted st pid = true) ∧
      start.chkID = chk ∧
      start.predRes = futurePids.map (fun pid => (pid, procReturn st pid))) ∧
    (∀ starts, ccMapSpawnWaiter st futurePids awaitPids chk elems = some starts →
      (∀ pid ∈ awaitPids ++ futurePids, procCompleted st pid = true) ∧
      starts = elems.map
        (fun e => ⟨chk, futurePids.map (fun pid => (pid, procReturn st pid)), e⟩)) := by
  constructor
  · intro start h
    simp only [ccSpawnWaiter] at h
    cases ha : awaitAll st awaitPids with
    | none => rw [ha] at h; cases h
    | some u =>
      cases u
      rw [ha] at h
      cases hc : collectPredRes st futurePids with
      | none => rw [hc] at h; cases h
      | some pr =>
        rw [hc] at h
        simp only [Option.map_some] at h
        cases h
        obtain ⟨hfut, hpr⟩ := collectPredRes_spec st futurePids pr hc
        refine ⟨?_, rfl, hpr⟩
        intro pid hpid
        rcases List.mem_append.mp hpid with hm | hm
        · exact awaitAll_completed st awaitPids ha pid hm
        · exact hfut pid hm
  · intro starts h
    simp only [ccMapSpawnWaiter] at h
    cases hc : collectPredRes st futurePids with
    | none => rw [hc] at h; cases h
    | some pr =>
      rw [hc] at h
      cases ha : awaitAll st awaitPids with
      | none => rw [ha] at h; cases h
      | some u =>
        cases u
        rw [ha] at h
        cases h
        obtain ⟨hfut, hpr⟩ := collectPredRes_spec st futurePids pr hc
        refine ⟨?_, by rw [hpr]⟩
        intro pid hpid
        rcases List.mem_append.mp hpid with hm | hm
        · exact awaitAll_completed st awaitPids ha pid hm
        · exact hfut pid hm

/-- Witness for C6: a snapshot with two completed processes (pid 1 returning
"a", pid 2 returning "b"); a waiter awaiting pid 1 with future pid 2 starts
its child with the predecessor map `[(2, "b")]`. -/
theorem spawn_dependency_witness :
    ccSpawnWaiter ⟨3, [(1, ⟨"w-1", Target.onLambda, true, "a"⟩),
        (2, ⟨"w-2", Target.onLambda, true, "b"⟩)], 0, [], none⟩ [1] [2] "chk" =
      some ⟨"chk", [(2, "b")]⟩ ∧
    (∀ pid ∈ ([1] : List Int) ++ [2],
      procCompleted ⟨3, [(1, ⟨"w-1", Target.onLambda, true, "a"⟩),
        (2, ⟨"w-2", Target.onLambda, true, "b"⟩)], 0, [], none⟩ pid = true) := by
  refine ⟨rfl, ?_⟩
  exact ((spawn_dependency ⟨3, [(1, ⟨"w-1", Target.onLambda, true, "a"⟩),
    (2, ⟨"w-2", Target.onLambda, true, "b"⟩)], 0, [], none⟩ [1] [2] "chk" []).1
    ⟨"chk", [(2, "b")]⟩ rfl).1

/-!
Wire protocol (protocol.go, `ParseRequest`) and the RPC endpoint
(rpc.go, `workload.ServeHTTP`).  The easyjson decoding of the body is
abstracted as an `Option Request` (`none` = unmarshal error); everything
after the decode is translated directly from the source.
-/

/-- Whether an `Except` result is a success. -/
def isOkE : Except ε α → Bool
  | .ok _ => true
  | .error _ => false

/-- ParseRequest (protocol.go lines 48-69): fail on an unmarshal error; log
a warning — with no effect on the outcome — when the request's `Err` field
is non-nil; fail when any single call's seqno exceeds the request's seqno;
otherwise return the decoded request. -/
def ParseRequest (decoded : Option Request) : Except String Request :=
  match decoded with
  | none => .error "protocol.ParseRequest: unmarshal error"
  | some req =>
    -- req.Err non-nil: logged as [!!!!! WARNING !!!!!], not fatal.
    if req.calls.any (fun call => decide (call.seqno > req.seqno)) then
      .error "protocol.ParseRequest: seqno out of range"
    else .ok req

/-- C8: wire sanity of ParseRequest.  Parsing fails exactly when the body
fails to decode or some call's seqno strictly exceeds the request's seqno;
on success the decoded request itself is returned; and the request's `err`
field never influences the outcome (it is only logged). -/
theorem parse_request_sanity (req : Request) :
    isOkE (ParseRequest none) = false ∧
    (isOkE (ParseRequest (some req)) = false ↔ ∃ call ∈ req.calls, req.seqno < call.seqno) ∧
    ((∀ call ∈ req.calls, call.seqno ≤ req.seqno) → ParseRequest (some req) = .ok req) ∧
    (∀ e, isOkE (ParseRequest (some { req with err := e })) = isOkE (ParseRequest (some req))) := by
  have hiff : ∀ (r : Request),
      (r.calls.any (fun call => decide (call.seqno > r.seqno)) = true)
        ↔ ∃ call ∈ r.calls, r.seqno < call.seqno := by
    intro r
    simp [List.any_eq_true]
  refine ⟨rfl, ?_, ?_, ?_⟩
  · by_cases h : req.calls.any (fun call => decide (call.seqno > req.seqno)) = true
    · simp only [ParseRequest]
      rw [if_pos h]
      simpa [isOkE] using (hiff req).mp h
    · simp only [ParseRequest]
      rw [if_neg h]
      constructor
      · intro hk
        simp [isOkE] at hk
      · intro hex
        exact absurd ((hiff req).mpr hex) h
  · intro hle
    have h : ¬ req.calls.any (fun call => decide (call.seqno > req.seqno)) = true := by
      intro hc
      obtain ⟨call, hmem, hgt⟩ := (hiff req).mp hc
      exact absurd hgt (not_lt.mpr (hle call hmem))
    simp only [ParseRequest]
    rw [if_neg h]
  · intro e
    by_cases h : req.calls.any (fun call => decide (call.seqno > req.seqno)) = true
    · have h' : ({ req with err := e } : Request).calls.any
          (fun call => decide (call.seqno > ({ req with err := e } : Request).seqno)) = true := h
      simp only [ParseRequest]
      rw [if_pos h', if_pos h]
    · have h' : ¬ ({ req with err := e } : Request).calls.any
          (fun call => decide (call.seqno > ({ req with err := e } : Request).seqno)) = true := h
      simp only [ParseRequest]
      rw [if_neg h', if_neg h]
      rfl

/-- Witness for C8: a request whose single call has seqno 7 > request seqno 3
fails to parse; the same shape with call seqno 3 parses and returns the
request (err field non-nil notwithstanding). -/
theorem parse_request_sanity_witness :
    isOkE (ParseRequest (some ⟨0, 3, "c", [⟨7, "checkpoint", ""⟩], false, some "warn"⟩)) = false ∧
    ParseRequest (some ⟨0, 3, "c", [⟨3, "checkpoint", ""⟩], false, some "warn"⟩) =
      .ok ⟨0, 3, "c", [⟨3, "checkpoint", ""⟩], false, some "warn"⟩ := by
  constructor
  · exact (parse_request_sanity ⟨0, 3, "c", [⟨7, "checkpoint", ""⟩], false, some "warn"⟩).2.1.mpr
      ⟨⟨7, "checkpoint", ""⟩, by decide, by decide⟩
  · exact (parse_request_sanity ⟨0, 3, "c", [⟨3, "checkpoint", ""⟩], false, some "warn"⟩).2.2.1
      (by decide)

/-- Error kinds an RPC reply can carry: the `wouldBlock` sentinel or any
other coordinator-call failure. -/
inductive RpcErr where
  | wouldBlock
  | other (msg : String)
  deriving DecidableEq

/-- asyncResponse (rpc.go): result of an asynchronous coordinator call. -/
structure AsyncResponse where
  res : Option CCVal
  err : Option RpcErr
  deriving DecidableEq

/-- The body the endpoint writes: nothing (202), a plain-text error message
(`http.Error`), or the JSON-encoded call result (`wr.Write(ob)`). -/
inductive HttpBody where
  | empty
  | errText (msg : String)
  | jsonBytes (ob : List Nat)
  deriving DecidableEq

/-- workload.ServeHTTP (rpc.go lines 470-525).  Abstracted inputs: the HTTP
method; the outcome of reading the body; the easyjson decode of the body
(fed to `ParseRequest`); whether `GetProcess(req.Pid)` found a process; the
`asyncResponse` received from the process's RPC channel; and the outcome of
`EncodeCoordCallResult` (json.Marshal) on the response's result.  Output is
the HTTP status code and body.  (At the `coordinator call failed` branch the
source formats the function-scoped `err` variable — which is nil there —
rather than `resp.err`; only the message text is affected.) -/
def ServeHTTP (method : String) (bodyRes : Except String (List Nat))
    (decoded : Option Request) (procFound : Bool) (resp : AsyncResponse)
    (encodeRes : Option CCVal → Except String (List Nat)) : Nat × HttpBody :=
  if method ≠ "POST" then
    (405, .errText ("an RPC request must have method POST, not " ++ method))
  else
    match bodyRes with
    | .error e => (400, .errText ("read body: " ++ e))
    | .ok _ =>
      match ParseRequest decoded with
      | .error e => (400, .errText ("parse body: " ++ e))
      | .ok req =>
        if procFound = false then (400, .errText ("process not found: " ++ toString req.pid))
        else
          match resp.err with
          | some .wouldBlock => (202, .empty)
          | some (.other _) => (400, .errText "coordinator call failed: <nil>")
          | none =>
            match encodeRes resp.res with
            | .error e => (500, .errText ("encoding result failed: " ++ e))
            | .ok ob => (200, .jsonBytes ob)

/-- C7: RPC endpoint status mapping.  Non-POST yields 405; an unreadable or
unparsable body yields 400; an unknown pid yields 400; after submission, a
would-block reply yields 202 with an empty body, any other error reply
yields 400, and a successful reply yields 200 with the JSON-encoded result
of the call. -/
theorem serve_http_status_mapping (method : String) (bodyRes : Except String (List Nat))
    (decoded : Option Request) (procFound : Bool) (resp : AsyncResponse)
    (encodeRes : Option CCVal → Except String (List Nat)) :
    (method ≠ "POST" → (ServeHTTP method bodyRes decoded procFound resp encodeRes).1 = 405) ∧
    (∀ e, bodyRes = .error e →
      (ServeHTTP "POST" bodyRes decoded procFound resp encodeRes).1 = 400) ∧
    (∀ body e, bodyRes = .ok body → ParseRequest decoded = .error e →
      (ServeHTTP "POST" bodyRes decoded procFound resp encodeRes).1 = 400) ∧
    (∀ body req, bodyRes = .ok body → ParseRequest decoded = .ok req → procFound = false →
      (ServeHTTP "POST" bodyRes decoded procFound resp encodeRes).1 = 400) ∧
    (∀ body req, bodyRes = .ok body → ParseRequest decoded = .ok req → procFound = true →
      resp.err = some .wouldBlock →
      ServeHTTP "POST" bodyRes decoded procFound resp encodeRes = (202, .empty)) ∧
    (∀ body req m, bodyRes = .ok body → ParseRequest decoded = .ok req → procFound = true →
      resp.err = some (.other m) →
      (ServeHTTP "POST" bodyRes decoded procFound resp encodeRes).1 = 400) ∧
    (∀ body req ob, bodyRes = .ok body → ParseRequest decoded = .ok req → procFound = true →
      resp.err = none → encodeRes resp.res = .ok ob →
      ServeHTTP "POST" bodyRes decoded procFound resp encodeRes = (200, .jsonBytes ob)) := by
  refine ⟨?_, ?_, ?_, ?_, ?_, ?_, ?_⟩
  · intro h
    simp [ServeHTTP, h]
  · intro e he
    simp [ServeHTTP, he]
  · intro body e hb hp
    simp [ServeHTTP, hb, hp]
  · intro body req hb hp hf
    simp [ServeHTTP, hb, hp, hf]
  · intro body req hb hp hf herr
    simp [ServeHTTP, hb, hp, hf, herr]
  · intro body req m hb hp hf herr
    simp [ServeHTTP, hb, hp, hf, herr]
  · intro body req ob hb hp hf herr henc
    simp [ServeHTTP, hb, hp, hf, herr, henc]

/-- Witness for C7: concrete would-block and success cases (one decoded
request, a registered process). -/
theorem serve_http_status_mapping_witness :
    ServeHTTP "POST" (.ok [1]) (some ⟨0, 0, "c", [], false, none⟩) true
        ⟨none, some .wouldBlock⟩ (fun _ => .ok [42]) = (202, HttpBody.empty) ∧
    ServeHTTP "POST" (.ok [1]) (some ⟨0, 0, "c", [], false, none⟩) true
        ⟨some (CCVal.procRes "r"), none⟩ (fun _ => .ok [42]) = (200, HttpBody.jsonBytes [42]) :=
  ⟨(serve_http_status_mapping "POST" (.ok [1]) (some ⟨0, 0, "c", [], false, none⟩) true
      ⟨none, some .wouldBlock⟩ (fun _ => .ok [42])).2.2.2.2.1
      [1] ⟨0, 0, "c", [], false, none⟩ rfl rfl rfl rfl,
    (serve_http_status_mapping "POST" (.ok [1]) (some ⟨0, 0, "c", [], false, none⟩) true
      ⟨some (CCVal.procRes "r"), none⟩ (fun _ => .ok [42])).2.2.2.2.2.2
      [1] ⟨0, 0, "c", [], false, none⟩ [42] rfl rfl rfl rfl rfl⟩

/-!
Workload controller (workload.go).  `NewWorkload` leaves `nextPid` at its
zero value 0 and the process table empty; `workload.Run` creates the main
process and starts its driver with `(nullChkID, appEv, nil)`, then waits on
either the main process's `Done` channel (returning
`resultHumanReadable(p.Ret)` — an external Python helper, abstracted as a
function parameter) or the workload's `FatalErr` sink (returning
`fmt.Errorf("FATAL: %v", err)` for the first error delivered). -/

/-- nullChkID (workload.go line 15): the sentinel checkpoint id. -/
def nullChkID : String := ""

/-- mainProcessName (workload.go line 16). -/
def mainProcessName : String := "main"

/-- The externally visible fields of the `process` struct filled in by
`CreateProcess`. -/
structure CreatedProc where
  pid : Int
  name : String
  target : Target
  deriving DecidableEq

/-- workload.CreateProcess (workload.go lines 115-133): take the next pid,
bump the counter, build the process record with name
`fmt.Sprintf("%s-%d", name, pid)` and register it in the pid map. -/
def CreateProcess (st : WState) (name : String) (target : Target) : CreatedProc × WState :=
  let pid := st.nextPid
  let fullName := name ++ "-" ++ toString pid
  (⟨pid, fullName, target⟩,
    { st with
        nextPid := pid + 1
        procs := st.procs ++ [(pid, ⟨fullName, target, false, ""⟩)] })

/-- The fresh workload state built by `NewWorkload` (workload.go lines
83-89): empty pid and qid maps, zero counters. -/
def newWorkloadState : WState := ⟨0, [], 0, [], none⟩

/-- Arguments of the `p.Run(startingChkID, appEv, ccRes)` call that starts a
process driver; `workload.Run` starts the main process with
`(nullChkID, appEv, nil)`. -/
structure StartArgs (ev : Type) where
  chkID : String
  appEv : Option ev
  ccRes : Option CCVal
  deriving DecidableEq

/-- The start arguments `workload.Run` passes to the main process's driver
(workload.go line 99: `go p.Run(nullChkID, appEv, nil)`). -/
def mainStartArgs (appEv : ev) : StartArgs ev := ⟨nullChkID, some appEv, none⟩

/-- The event `workload.Run` observes after starting the main process:
either the main process's completion signal (read `p.Ret` afterwards) or
the first fatal error delivered to the `FatalErr` sink. -/
inductive MainOutcome where
  | completed (ret : String)
  | fatalErr (e : String)
  deriving DecidableEq

/-- workload.Run's result (workload.go lines 95-108): on completion, the
human-readable decoding of the main process's return value; on a fatal
error, an error wrapping it as `FATAL: <err>`. -/
def WorkloadRun (humanReadable : String → Except String String)
    (outcome : MainOutcome) : Except String String :=
  match outcome with
  | .completed ret => humanReadable ret
  | .fatalErr e => .error ("FATAL: " ++ e)

/-- C9: main process initialization.  On a fresh workload, `workload.Run`
creates a process with pid 0, name "main-0" and target OnCoordinator,
starts its driver from the sentinel (empty-string) checkpoint id with a nil
last coordinator-call result and the user-supplied application event, and
then returns the (human-readable decoding of the) main process's return
value on completion, or an error wrapping the first fatal error delivered
to the fatal-error sink. -/
theorem workload_run_main (ev : Type) (appEv : ev)
    (humanReadable : String → Except String String) (ret e : String) :
    (CreateProcess newWorkloadState mainProcessName Target.onCoordinator).1 =
      ⟨0, "main-0", Target.onCoordinator⟩ ∧
    mainStartArgs appEv = ⟨"", some appEv, none⟩ ∧
    WorkloadRun humanReadable (.completed ret) = humanReadable ret ∧
    WorkloadRun humanReadable (.fatalErr e) = .error ("FATAL: " ++ e) :=
  ⟨rfl, rfl, rfl, rfl⟩

end Kappa
